import Mathlib

/-!
Verification of `intuition_model.py`: value and policy estimators for a
game-playing search agent.

Numbers are modelled as rationals (`ℚ`).  Python values that may be nested
tuples (the keys of `NaiveValue`'s dictionaries and its feature rows) are
modelled by the inductive `PyVal`.  Python dictionaries are modelled as
association lists in insertion order, with `dictGet` (lookup), `dictAdd`
(`d[k] = d.get(k, 0) + delta`), `dictSet` (`d[k] = v`) and `dictRemove`
(`del d[k]`).  Exceptions are modelled with `Except`.  The treelite /
GBDT backend is kept abstract: a parameter `pr : List (List ℚ) → List ℚ`
standing for `treelite_predictor.predict` (one score per input row, per
the backend contract).  IEEE results of numpy division (which yields
`nan` / `inf` rather than raising on division by zero) are modelled by
`NpVal`.
-/

/-- A Python value appearing in feature rows and dictionary keys:
either a number or a (possibly nested) tuple of values. -/
inductive PyVal where
  | num (q : ℚ)
  | tup (elems : List PyVal)

/-- Boolean equality on `PyVal` (structural). -/
def PyVal.beq : PyVal → PyVal → Bool
  | PyVal.num a, PyVal.num b => a == b
  | PyVal.tup [], PyVal.tup [] => true
  | PyVal.tup (a :: as), PyVal.tup (b :: bs) =>
      PyVal.beq a b && PyVal.beq (PyVal.tup as) (PyVal.tup bs)
  | _, _ => false

theorem PyVal.beq_iff : ∀ a b : PyVal, PyVal.beq a b = true ↔ a = b
  | PyVal.num _, PyVal.num _ => by simp [PyVal.beq]
  | PyVal.num _, PyVal.tup _ => by simp [PyVal.beq]
  | PyVal.tup _, PyVal.num _ => by simp [PyVal.beq]
  | PyVal.tup [], PyVal.tup [] => by simp [PyVal.beq]
  | PyVal.tup [], PyVal.tup (_ :: _) => by simp [PyVal.beq]
  | PyVal.tup (_ :: _), PyVal.tup [] => by simp [PyVal.beq]
  | PyVal.tup (a :: as), PyVal.tup (b :: bs) => by
      have h1 := PyVal.beq_iff a b
      have h2 := PyVal.beq_iff (PyVal.tup as) (PyVal.tup bs)
      simp only [PyVal.tup.injEq] at h2
      simp [PyVal.beq, Bool.and_eq_true, h1, h2]

instance : DecidableEq PyVal :=
  fun a b => decidable_of_iff (PyVal.beq a b = true) (PyVal.beq_iff a b)

/-- Result of a numpy floating-point division: a finite number, `nan`,
or a signed infinity.  Needed because `array / 0.0` does not raise in
numpy; it produces `nan` / `inf` values. -/
inductive NpVal where
  | num (q : ℚ)
  | nan
  | inf
  | neginf
deriving DecidableEq, Repr

/-- numpy division `a / b` (array element by scalar): IEEE semantics at a
zero divisor, exact rational division otherwise. -/
def npDiv (a b : ℚ) : NpVal :=
  if b = 0 then (if a = 0 then NpVal.nan else if 0 < a then NpVal.inf else NpVal.neginf)
  else NpVal.num (a / b)

/-- Python `d[k]` on an association-list dictionary: the value of the first
entry whose key equals `k`, if any. -/
def dictGet {K V : Type} [DecidableEq K] (m : List (K × V)) (k : K) : Option V :=
  match m with
  | [] => none
  | (k', v) :: t => if k' = k then some v else dictGet t k

/-- Python `d[k] = d.get(k, d0) + delta` where `d0 = 0`: update the entry in
place if the key exists, append a fresh entry otherwise. -/
def dictAdd {K : Type} [DecidableEq K] (m : List (K × ℚ)) (k : K) (delta : ℚ) : List (K × ℚ) :=
  match m with
  | [] => [(k, delta)]
  | (k', v) :: t => if k' = k then (k', v + delta) :: t else (k', v) :: dictAdd t k delta

/-- Python `d[k] = v`: update in place if the key exists, append otherwise. -/
def dictSet {K V : Type} [DecidableEq K] (m : List (K × V)) (k : K) (v : V) : List (K × V) :=
  match m with
  | [] => [(k, v)]
  | (k', v') :: t => if k' = k then (k', v) :: t else (k', v') :: dictSet t k v

/-- Python `del d[k]`: drop the entries whose key equals `k`. -/
def dictRemove {K V : Type} [DecidableEq K] (m : List (K × V)) (k : K) : List (K × V) :=
  match m with
  | [] => []
  | (k', v) :: t => if k' = k then dictRemove t k else (k', v) :: dictRemove t k

/-- `for k in ks: del d[k]` -/
def dictRemoveAll {K V : Type} [DecidableEq K] (m : List (K × V)) (ks : List K) : List (K × V) :=
  ks.foldl dictRemove m

/-- Python `dict(pairs)` / a dict comprehension over a pair list: insert the
pairs left to right (first occurrence fixes the position, last occurrence
fixes the value). -/
def buildDict {K V : Type} [DecidableEq K] (l : List (K × V)) : List (K × V) :=
  l.foldl (fun m kv => dictSet m kv.1 kv.2) []

/-- `UniformPolicy.predict` (`intuition_model.py:23-28`): the uniform
distribution over the allowable actions.  The Python code returns an empty
dict `{}` on an empty action sequence; that degenerate branch is modelled
as the empty list. -/
def UniformPolicy.predict (_features : List ℚ) (allowable_actions : List ℚ) : List ℚ :=
  if allowable_actions = [] then []
  else List.replicate allowable_actions.length (1 / (allowable_actions.length : ℚ))

/-- The inference-time feature expansion inside `GBDTPolicy.predict`
(`intuition_model.py:114-118`): one row per allowable action, holding the
raw action value followed by the agent's features. -/
def expand_inference (agent_features : List ℚ) (allowable_actions : List ℚ) : List (List ℚ) :=
  allowable_actions.map (fun action => action :: agent_features)

/-- The normalization step of `GBDTPolicy.predict`
(`intuition_model.py:127`): `move_probabilities / move_probabilities.sum()`
with numpy semantics (no exception on a zero sum; `0.0/0.0` is `nan`). -/
def gbdtNormalize (scores : List ℚ) : List NpVal :=
  scores.map (fun s => npDiv s scores.sum)

/-- `GBDTPolicy.predict` (`intuition_model.py:101-128`), with the backend
predictor abstracted as `pr`.  A single allowable action short-circuits to
`[1.0]`; otherwise the expanded rows are scored by the backend and the
scores normalized. -/
def GBDTPolicy.predict (pr : List (List ℚ) → List ℚ)
    (agent_features : List ℚ) (allowable_actions : List ℚ) : List NpVal :=
  if allowable_actions.length = 1 then [NpVal.num 1]
  else gbdtNormalize (pr (expand_inference agent_features allowable_actions))

/-- `GBDTPolicy.extract_policy_observations` (`intuition_model.py:57-75`):
for every state row and every action index `i` in that state's label
vector, emit the row `[i] ++ features` paired with the scalar label. -/
def extract_policy_observations (features : List (List ℚ)) (labels : List (List ℚ)) :
    List (List ℚ) × List ℚ :=
  let obs := (features.zip labels).flatMap
    (fun p => p.2.enum.map (fun il => (((il.1 : ℕ) : ℚ) :: p.1, il.2)))
  (obs.map Prod.fst, obs.map Prod.snd)

/-- `NaiveValue` (`intuition_model.py:131-134`): two dictionaries keyed by
feature tuples.  The keys are `PyVal`s because `predict` looks dictionaries
up with a tuple built from the whole features batch; the values are the
integer counts described by the dataclass comments and produced by `load`. -/
structure NaiveValue where
  state_visits : List (PyVal × ℤ)
  state_wins : List (PyVal × ℤ)
deriving DecidableEq

/-- `NaiveValue.predict` (`intuition_model.py:191-200`).  Faithful to the
source: the lookup key is `tuple(features)` — the tuple of the WHOLE batch —
for every row of the batch (the loop variable `board_features` is unused in
the body).  `KeyError` and `ZeroDivisionError` both fall back to `0`. -/
def NaiveValue.predict (m : NaiveValue) (features : List PyVal) : List ℚ :=
  features.map (fun _board_features =>
    match dictGet m.state_wins (PyVal.tup features),
          dictGet m.state_visits (PyVal.tup features) with
    | some w, some v => if v = 0 then 0 else (w : ℚ) / (v : ℚ)
    | some _, none => 0
    | none, _ => 0)

/-- `NaiveValue.train` (`intuition_model.py:153-189`): the first statement is
`raise RuntimeError("Broken")`, so every call fails before touching
`state_visits` / `state_wins`; the accumulation, pruning and test code below
the raise is unreachable.  Mutation is modelled by returning the would-be new
estimator, so an `Except.error` result means no state was committed. -/
def NaiveValue.train (_m : NaiveValue) (_samples : List (List ℚ × ℚ))
    (_test_fraction : ℚ) : Except String NaiveValue :=
  Except.error "Broken"

/-- The file contents written by `NaiveValue.save` / read by `load`
(`intuition_model.py:136-151`) after the JSON round trip: two association
lists whose keys are the arrays the tuples serialized to and whose values
are JSON numbers. -/
abbrev ValueFile := List (List ℚ × ℚ) × List (List ℚ × ℚ)

/-- The numbers of a list of `PyVal`s, when every element is a number. -/
def numList : List PyVal → Option (List ℚ)
  | [] => some []
  | PyVal.num q :: t => (numList t).map (fun qs => q :: qs)
  | PyVal.tup _ :: _ => none

/-- JSON encoding of one dictionary key: defined exactly on the flat
numeric tuples (the only well-formed `TabularKey`s), where it yields the
array of the tuple's numbers. -/
def flatKey (k : PyVal) : Option (List ℚ) :=
  match k with
  | PyVal.num _ => none
  | PyVal.tup es => numList es

/-- JSON encoding of `list(d.items())` for an integer-valued dictionary:
each key becomes an array of numbers, each value a JSON number. -/
def encodeItemsInt (l : List (PyVal × ℤ)) : Option (List (List ℚ × ℚ)) :=
  match l with
  | [] => some []
  | (k, v) :: t => do
      let ks ← flatKey k
      let rest ← encodeItemsInt t
      pure ((ks, (v : ℚ)) :: rest)

/-- `NaiveValue.save` (`intuition_model.py:136-145`) composed with the JSON
serialization of the two item lists.  `none` only for keys outside the
flat-numeric-tuple data model (which would not round-trip through
`json` + `tuple`). -/
def NaiveValue.save (m : NaiveValue) : Option ValueFile := do
  let vis ← encodeItemsInt m.state_visits
  let wins ← encodeItemsInt m.state_wins
  pure (vis, wins)

/-- Python `int(q)`: truncation toward zero. -/
def pyInt (q : ℚ) : ℤ :=
  if q < 0 then ⌈q⌉ else ⌊q⌋

/-- `NaiveValue.load` (`intuition_model.py:147-151`): rebuild each
dictionary as `{tuple(key): int(value) for (key, value) in items}`. -/
def NaiveValue.load (f : ValueFile) : NaiveValue where
  state_visits := buildDict (f.1.map (fun kv => (PyVal.tup (kv.1.map PyVal.num), pyInt kv.2)))
  state_wins := buildDict (f.2.map (fun kv => (PyVal.tup (kv.1.map PyVal.num), pyInt kv.2)))

/-- `NaivePolicy` (`intuition_model.py:203-206`): two dictionaries keyed by
`tuple(features + [i])` — always a flat numeric tuple — with float values. -/
structure NaivePolicy where
  state_action_mass : List (List ℚ × ℚ)
  state_action_weight : List (List ℚ × ℚ)
deriving DecidableEq

/-- A training sample as consumed by `NaivePolicy.train`: a
`(sample_type, features, labels)` triple. -/
abbrev PolicySample := String × List ℚ × List ℚ

/-- The body of `NaivePolicy.train`'s outer loop
(`intuition_model.py:226-233`): skip `"value"` samples, otherwise
accumulate `mass[key] += label` and `weight[key] += 1.0` for each
enumerated label, with `key = tuple(features + [i])`. -/
def NaivePolicy.accumSample (m : NaivePolicy) (s : PolicySample) : NaivePolicy :=
  if s.1 = "value" then m
  else s.2.2.enum.foldl
    (fun m' il =>
      let state_action := s.2.1 ++ [((il.1 : ℕ) : ℚ)]
      { state_action_mass := dictAdd m'.state_action_mass state_action il.2,
        state_action_weight := dictAdd m'.state_action_weight state_action 1 })
    m

/-- The accumulation phase of `NaivePolicy.train`
(`intuition_model.py:224-233`), before pruning. -/
def NaivePolicy.accumulate (samples : List PolicySample) : NaivePolicy :=
  samples.foldl NaivePolicy.accumSample { state_action_mass := [], state_action_weight := [] }

/-- `NaivePolicy.train` (`intuition_model.py:222-242`): accumulate, then
delete every key whose weight is `<= 5` from both dictionaries. -/
def NaivePolicy.train (samples : List PolicySample) : NaivePolicy :=
  let m := NaivePolicy.accumulate samples
  let to_delete := (m.state_action_weight.filter (fun kv => decide (kv.2 ≤ 5))).map Prod.fst
  { state_action_mass := dictRemoveAll m.state_action_mass to_delete,
    state_action_weight := dictRemoveAll m.state_action_weight to_delete }

/-- The exceptions that can arise inside `NaivePolicy.predict`'s `try`
block: a dictionary miss, or true division by a zero weight. -/
inductive NaiveErr where
  | keyError
  | zeroDiv
deriving DecidableEq

/-- One iteration of `NaivePolicy.predict`'s loop (`intuition_model.py:249`):
`state_action_mass[key] / state_action_weight[key]`, raising `KeyError` on
a missing key and `ZeroDivisionError` on a zero weight. -/
def NaivePolicy.lookupRatio (m : NaivePolicy) (k : List ℚ) : Except NaiveErr ℚ :=
  match dictGet m.state_action_mass k with
  | none => Except.error NaiveErr.keyError
  | some mass =>
      match dictGet m.state_action_weight k with
      | none => Except.error NaiveErr.keyError
      | some w => if w = 0 then Except.error NaiveErr.zeroDiv else Except.ok (mass / w)

/-- The `try` body of `NaivePolicy.predict` (`intuition_model.py:246-250`)
over the list of lookup keys: the per-action ratios, or the first exception. -/
def NaivePolicy.tryMoves (m : NaivePolicy) : List (List ℚ) → Except NaiveErr (List ℚ)
  | [] => Except.ok []
  | k :: ks => do
      let p ← m.lookupRatio k
      let rest ← m.tryMoves ks
      pure (p :: rest)

/-- The lookup keys of `NaivePolicy.predict`: `tuple(features + [i])` for
each position `i` in `allowable_actions` (the action values themselves are
ignored; only positions matter). -/
def NaivePolicy.actionKeys (features : List ℚ) (n : ℕ) : List (List ℚ) :=
  (List.range n).map (fun i => features ++ [((i : ℕ) : ℚ)])

/-- `NaivePolicy.predict` (`intuition_model.py:244-255`): the per-action
ratios if every lookup hits; the uniform distribution if any lookup raises
`KeyError`; an uncaught `ZeroDivisionError` (impossible on trained states,
whose weights exceed 5) propagates. -/
def NaivePolicy.predict (m : NaivePolicy) (features : List ℚ)
    (allowable_actions : List ℚ) : Except String (List ℚ) :=
  match m.tryMoves (NaivePolicy.actionKeys features allowable_actions.length) with
  | Except.ok ps => Except.ok ps
  | Except.error NaiveErr.keyError =>
      Except.ok (List.replicate allowable_actions.length (1 / (allowable_actions.length : ℚ)))
  | Except.error NaiveErr.zeroDiv => Except.error "ZeroDivisionError"

/-- Decidable check that every lookup key for `features` and an action count
`n` is present in both of a policy estimator's dictionaries. -/
def NaivePolicy.allKeysPresent (m : NaivePolicy) (features : List ℚ) (n : ℕ) : Bool :=
  (NaivePolicy.actionKeys features n).all
    (fun k => (dictGet m.state_action_mass k).isSome && (dictGet m.state_action_weight k).isSome)

/-- The file contents written by `NaivePolicy.save` / read by `load`
(`intuition_model.py:208-220`): the two item lists after the JSON round
trip.  The keys are already flat numeric tuples, so the encoding is the
identity on each item. -/
abbrev PolicyFile := List (List ℚ × ℚ) × List (List ℚ × ℚ)

/-- `NaivePolicy.save` (`intuition_model.py:208-214`): serialize
`list(d.items())` for both dictionaries. -/
def NaivePolicy.save (m : NaivePolicy) : PolicyFile :=
  (m.state_action_mass, m.state_action_weight)

/-- `NaivePolicy.load` (`intuition_model.py:216-220`): rebuild each
dictionary as `{tuple(key): float(value) for (key, value) in items}`
(`tuple` and `float` are the identity on the modelled values). -/
def NaivePolicy.load (f : PolicyFile) : NaivePolicy where
  state_action_mass := buildDict f.1
  state_action_weight := buildDict f.2

/-! ### Helper lemmas -/

theorem getD_map_of_lt {α β : Type} (g : α → β) (l : List α) (i : ℕ) (d : α)
    (h : i < l.length) : (l.map g).getD i (g d) = g (l.getD i d) := by
  induction l generalizing i with
  | nil => simp at h
  | cons a t ih =>
      cases i with
      | zero => simp [List.getD]
      | succ j =>
          simp only [List.map_cons, List.getD_cons_succ]
          exact ih j (by simpa using h)

/-! ### Claim theorems -/

/-- Claim C7: for every agent feature vector and every `allowable_actions`
sequence of length exactly 1, `GBDTPolicy.predict` returns `[1.0]` without
invoking the backend (the result does not depend on the backend predictor),
regardless of model state. -/
theorem gbdtPolicy_predict_singleton (pr pr2 : List (List ℚ) → List ℚ)
    (agent_features : List ℚ) (allowable_actions : List ℚ)
    (h : allowable_actions.length = 1) :
    GBDTPolicy.predict pr agent_features allowable_actions = [NpVal.num 1] ∧
    GBDTPolicy.predict pr agent_features allowable_actions =
      GBDTPolicy.predict pr2 agent_features allowable_actions := by
  constructor
  · simp [GBDTPolicy.predict, h]
  · simp [GBDTPolicy.predict, h]

/-- Witness for C7 at `agent_features = [3,4]`, `allowable_actions = [7]`,
with two different backends. -/
theorem gbdtPolicy_predict_singleton_witness :
    ([(7 : ℚ)] : List ℚ).length = 1 ∧
    (GBDTPolicy.predict (fun _ => [0]) [3, 4] [7] = [NpVal.num 1] ∧
     GBDTPolicy.predict (fun _ => [0]) [3, 4] [7] =
       GBDTPolicy.predict (fun rows => List.replicate rows.length 1) [3, 4] [7]) :=
  ⟨rfl, gbdtPolicy_predict_singleton (fun _ => [0])
    (fun rows => List.replicate rows.length 1) [3, 4] [7] rfl⟩

/-- Claim C5: for every agent feature vector of length `F` and every
`allowable_actions` of length `A > 1`, the inference-time expansion produces
exactly `A` rows of length `F + 1`, and row `i` is
`allowable_actions[i] :: agent_features`. -/
theorem expand_inference_rows (agent_features : List ℚ) (allowable_actions : List ℚ)
    (_h : 1 < allowable_actions.length) :
    (expand_inference agent_features allowable_actions).length = allowable_actions.length ∧
    ∀ i, i < allowable_actions.length →
      (expand_inference agent_features allowable_actions).getD i [] =
        allowable_actions.getD i 0 :: agent_features ∧
      ((expand_inference agent_features allowable_actions).getD i []).length =
        agent_features.length + 1 := by
  refine ⟨by simp [expand_inference], ?_⟩
  intro i hi
  have hrow : (expand_inference agent_features allowable_actions).getD i ((0 : ℚ) :: agent_features) =
      allowable_actions.getD i 0 :: agent_features :=
    getD_map_of_lt (fun action => action :: agent_features) allowable_actions i 0 hi
  have hlt : i < (expand_inference agent_features allowable_actions).length := by
    simpa [expand_inference] using hi
  have hd : (expand_inference agent_features allowable_actions).getD i [] =
      (expand_inference agent_features allowable_actions).getD i ((0 : ℚ) :: agent_features) := by
    rw [List.getD_eq_getElem?_getD, List.getD_eq_getElem?_getD,
      List.getElem?_eq_getElem hlt]
    rfl
  refine ⟨hd.trans hrow, ?_⟩
  rw [hd.trans hrow]
  simp

/-- Witness for C5 at the spec's example `agent_features = [3,4]`,
`allowable_actions = [0,2]`. -/
theorem expand_inference_rows_witness :
    1 < ([(0 : ℚ), 2] : List ℚ).length ∧
    ((expand_inference [3, 4] [0, 2]).length = ([(0 : ℚ), 2] : List ℚ).length ∧
     ∀ i, i < ([(0 : ℚ), 2] : List ℚ).length →
       (expand_inference [3, 4] [0, 2]).getD i [] = ([(0 : ℚ), 2] : List ℚ).getD i 0 :: [3, 4] ∧
       ((expand_inference [3, 4] [0, 2]).getD i []).length = ([(3 : ℚ), 4] : List ℚ).length + 1) :=
  ⟨by decide, expand_inference_rows [3, 4] [0, 2] (by decide)⟩

/-- Claim C3, counterexample: on the all-zero score vector `[0, 0]` the
normalization step of `GBDTPolicy.predict` does NOT raise; numpy division
by the zero sum yields a vector of `nan` values, which is returned. -/
theorem gbdtNormalize_all_zero_cex :
    gbdtNormalize [0, 0] = [NpVal.nan, NpVal.nan] := by
  norm_num [gbdtNormalize, npDiv]

/-- Claim C3, amended: for every all-zero input score vector, the
normalization step (dividing every element by the sum of all elements)
returns a same-length vector of `nan` values instead of raising — numpy
array division emits a warning, not a `ZeroDivisionError`. -/
theorem gbdtNormalize_all_zero_nan (scores : List ℚ)
    (h : ∀ s ∈ scores, s = 0) :
    gbdtNormalize scores = List.replicate scores.length NpVal.nan := by
  have hsum : scores.sum = 0 := List.sum_eq_zero h
  rw [List.eq_replicate_iff]
  refine ⟨by simp [gbdtNormalize], ?_⟩
  intro b hb
  rcases List.mem_map.mp hb with ⟨s, hs, rfl⟩
  have hs0 : s = 0 := h s hs
  simp [npDiv, hsum, hs0]

/-- Witness for C3's amended statement at `scores = [0, 0]`. -/
theorem gbdtNormalize_all_zero_nan_witness :
    (∀ s ∈ ([(0 : ℚ), 0] : List ℚ), s = 0) ∧
    gbdtNormalize [0, 0] = List.replicate ([(0 : ℚ), 0] : List ℚ).length NpVal.nan :=
  ⟨by norm_num, gbdtNormalize_all_zero_nan [0, 0] (by norm_num)⟩

/-- Claim C2 (code bug): `NaiveValue.predict` looks every row up under the
key `tuple(features)` built from the WHOLE batch instead of the row's own
feature tuple, so a batch consisting of the single row `(0, 1)` — present
in both mappings with 3 wins out of 6 visits — yields the fallback `0`
instead of the documented `3 / 6 = 1/2`. -/
theorem naiveValue_predict_whole_batch_bug :
    NaiveValue.predict
      { state_visits := [(PyVal.tup [PyVal.num 0, PyVal.num 1], 6)],
        state_wins := [(PyVal.tup [PyVal.num 0, PyVal.num 1], 3)] }
      [PyVal.tup [PyVal.num 0, PyVal.num 1]] = [0] ∧
    dictGet [(PyVal.tup [PyVal.num 0, PyVal.num 1], (3 : ℤ))]
      (PyVal.tup [PyVal.num 0, PyVal.num 1]) = some 3 ∧
    dictGet [(PyVal.tup [PyVal.num 0, PyVal.num 1], (6 : ℤ))]
      (PyVal.tup [PyVal.num 0, PyVal.num 1]) = some 6 ∧
    ((3 : ℚ) / 6 ≠ 0) := by
  refine ⟨by simp [NaiveValue.predict, dictGet], by simp [dictGet], by simp [dictGet],
    by norm_num⟩

/-- Claim C10: every call to `NaiveValue.train` fails with
`RuntimeError("Broken")` before performing any accumulation, so no new
estimator state is ever committed by the value tabular trainer. -/
theorem naiveValue_train_raises (m : NaiveValue) (samples : List (List ℚ × ℚ))
    (test_fraction : ℚ) :
    NaiveValue.train m samples test_fraction = Except.error "Broken" := rfl

theorem enum_map_of_fst {α : Type} (g : ℕ → α) (l : List ℚ) :
    l.enum.map (fun il => g il.1) = (List.range l.length).map g := by
  have h1 : l.enum.map (fun il => g il.1) = (l.enum.map Prod.fst).map g := by
    rw [List.map_map]; rfl
  rw [h1, List.enum_map_fst]

theorem range_map_getD {α : Type} (g : ℕ → α) (n i : ℕ) (d : α) (h : i < n) :
    ((List.range n).map g).getD i d = g i := by
  rw [List.getD_eq_getElem?_getD, List.getElem?_map, List.getElem?_range h]
  rfl

/-- Unfolding of `extract_policy_observations` on a leading (state, labels)
pair: the state's block of rows (one per enumerated label) followed by the
rows of the remaining states. -/
theorem epo_cons (f l : List ℚ) (fs ls : List (List ℚ)) :
    extract_policy_observations (f :: fs) (l :: ls) =
      (l.enum.map (fun il => ((il.1 : ℕ) : ℚ) :: f) ++ (extract_policy_observations fs ls).1,
       l ++ (extract_policy_observations fs ls).2) := by
  simp only [extract_policy_observations, List.zip_cons_cons, List.flatMap_cons,
    List.map_append, List.map_map]
  refine Prod.ext ?_ ?_
  · rfl
  · show l.enum.map Prod.snd ++ _ = _
    rw [List.enum_map_snd]

theorem epo_nil_left (ls : List (List ℚ)) :
    extract_policy_observations [] ls = ([], []) := by
  simp [extract_policy_observations]

theorem enum_map_cons_eq (f : List ℚ) (l : List ℚ) :
    l.enum.map (fun il => ((il.1 : ℕ) : ℚ) :: f) =
      (List.range l.length).map (fun j => ((j : ℕ) : ℚ) :: f) :=
  enum_map_of_fst (fun j => ((j : ℕ) : ℚ) :: f) l

/-- Claim C6: for a features batch of `N` vectors and a labels batch of `N`
ragged label vectors, training-row expansion produces exactly `sum(A_n)`
rows; the flattened labels are the concatenation of the label vectors in
state order; and the row at flattened position `sum(A_1..A_{n-1}) + i` —
state-major, action-minor order — is `[i] ++ features_batch[n]` with label
`labels_batch[n][i]`.  The transform is a pure function, and a state with
an empty label vector contributes an empty block of rows. -/
theorem extract_policy_observations_spec (features labels : List (List ℚ))
    (h : features.length = labels.length) :
    (extract_policy_observations features labels).1.length = (labels.map List.length).sum ∧
    (extract_policy_observations features labels).2 = labels.flatten ∧
    ∀ n i, n < labels.length → i < (labels.getD n []).length →
      (extract_policy_observations features labels).1.getD
          (((labels.take n).map List.length).sum + i) [] = ((i : ℕ) : ℚ) :: features.getD n [] ∧
      (extract_policy_observations features labels).2.getD
          (((labels.take n).map List.length).sum + i) 0 = (labels.getD n []).getD i 0 := by
  induction features generalizing labels with
  | nil =>
      cases labels with
      | nil =>
          refine ⟨by simp [epo_nil_left], by simp [epo_nil_left], ?_⟩
          intro n i hn _hi
          exact absurd hn (by simp)
      | cons l ls => simp at h
  | cons f fs ih =>
      cases labels with
      | nil => simp at h
      | cons l ls =>
          have h' : fs.length = ls.length := by simpa using h
          obtain ⟨ih1, ih2, ih3⟩ := ih ls h'
          rw [epo_cons]
          have hbl : (l.enum.map (fun il => ((il.1 : ℕ) : ℚ) :: f)).length = l.length := by
            simp
          refine ⟨?_, ?_, ?_⟩
          · simp [ih1]
          · simp [ih2]
          · intro n i hn hi
            cases n with
            | zero =>
                have hi' : i < l.length := by simpa using hi
                simp only [List.take_zero, List.map_nil, List.sum_nil, Nat.zero_add]
                constructor
                · rw [List.getD_append _ _ _ _ (by rw [hbl]; exact hi')]
                  rw [enum_map_cons_eq, range_map_getD _ _ _ _ hi']
                  simp
                · rw [List.getD_append _ _ _ _ hi']
                  simp
            | succ m =>
                have hm : m < ls.length := by simpa using hn
                have hi' : i < (ls.getD m []).length := by simpa using hi
                have hidx : (((l :: ls).take (m + 1)).map List.length).sum + i
                    = l.length + (((ls.take m).map List.length).sum + i) := by
                  simp [Nat.add_assoc]
                rw [hidx]
                obtain ⟨p1, p2⟩ := ih3 m i hm hi'
                constructor
                · rw [List.getD_append_right _ _ _ _ (by rw [hbl]; exact Nat.le_add_right _ _)]
                  rw [hbl, Nat.add_sub_cancel_left]
                  simpa using p1
                · rw [List.getD_append_right _ _ _ _ (Nat.le_add_right _ _)]
                  rw [Nat.add_sub_cancel_left]
                  simpa using p2

/-- Witness for C6 at the spec's example: features `[[0,1],[1,0]]` and
labels `[[0.2,0.8],[0.5,0.5]]` expand to rows
`[[0,0,1],[1,0,1],[0,1,0],[1,1,0]]` with labels `[0.2,0.8,0.5,0.5]`. -/
theorem extract_policy_observations_spec_witness :
    extract_policy_observations [[0, 1], [1, 0]] [[1/5, 4/5], [1/2, 1/2]] =
      ([[0, 0, 1], [1, 0, 1], [0, 1, 0], [1, 1, 0]], [1/5, 4/5, 1/2, 1/2]) ∧
    ([[(0 : ℚ), 1], [1, 0]] : List (List ℚ)).length =
      ([[(1 : ℚ)/5, 4/5], [1/2, 1/2]] : List (List ℚ)).length ∧
    ((extract_policy_observations [[0, 1], [1, 0]] [[1/5, 4/5], [1/2, 1/2]]).1.length =
        (([[(1 : ℚ)/5, 4/5], [1/2, 1/2]] : List (List ℚ)).map List.length).sum ∧
      (extract_policy_observations [[0, 1], [1, 0]] [[1/5, 4/5], [1/2, 1/2]]).2 =
        ([[(1 : ℚ)/5, 4/5], [1/2, 1/2]] : List (List ℚ)).flatten ∧
      ∀ n i, n < ([[(1 : ℚ)/5, 4/5], [1/2, 1/2]] : List (List ℚ)).length →
        i < (([[(1 : ℚ)/5, 4/5], [1/2, 1/2]] : List (List ℚ)).getD n []).length →
        (extract_policy_observations [[0, 1], [1, 0]] [[1/5, 4/5], [1/2, 1/2]]).1.getD
            ((([[(1 : ℚ)/5, 4/5], [1/2, 1/2]] : List (List ℚ)).take n |>.map List.length).sum + i)
            [] = ((i : ℕ) : ℚ) :: ([[(0 : ℚ), 1], [1, 0]] : List (List ℚ)).getD n [] ∧
        (extract_policy_observations [[0, 1], [1, 0]] [[1/5, 4/5], [1/2, 1/2]]).2.getD
            ((([[(1 : ℚ)/5, 4/5], [1/2, 1/2]] : List (List ℚ)).take n |>.map List.length).sum + i)
            0 = (([[(1 : ℚ)/5, 4/5], [1/2, 1/2]] : List (List ℚ)).getD n []).getD i 0) :=
  ⟨by norm_num [extract_policy_observations, List.enum, List.enumFrom], rfl,
    extract_policy_observations_spec [[0, 1], [1, 0]] [[1/5, 4/5], [1/2, 1/2]] rfl⟩

theorem dictGet_dictAdd_self {K : Type} [DecidableEq K] (m : List (K × ℚ)) (k : K) (d : ℚ) :
    dictGet (dictAdd m k d) k = some ((dictGet m k).getD 0 + d) := by
  induction m with
  | nil => simp [dictAdd, dictGet]
  | cons kv t ih =>
      obtain ⟨k', v⟩ := kv
      by_cases hk : k' = k
      · subst hk
        simp [dictAdd, dictGet]
      · simp [dictAdd, dictGet, hk, ih]

theorem dictGet_dictAdd_ne {K : Type} [DecidableEq K] (m : List (K × ℚ)) (k k' : K) (d : ℚ)
    (h : k' ≠ k) : dictGet (dictAdd m k d) k' = dictGet m k' := by
  have h' : ¬ k = k' := fun hh => h hh.symm
  induction m with
  | nil => simp [dictAdd, dictGet, h']
  | cons kv t ih =>
      obtain ⟨k'', v⟩ := kv
      by_cases hk : k'' = k
      · subst hk
        simp [dictAdd, dictGet, h']
      · simp [dictAdd, dictGet, hk, ih]

theorem mem_keys_dictAdd {K : Type} [DecidableEq K] (m : List (K × ℚ)) (k a : K) (d : ℚ) :
    a ∈ (dictAdd m k d).map Prod.fst ↔ a ∈ m.map Prod.fst ∨ a = k := by
  induction m with
  | nil => simp [dictAdd]
  | cons kv t ih =>
      obtain ⟨k', v⟩ := kv
      by_cases hk : k' = k
      · subst hk
        simp [dictAdd]
        tauto
      · simp [dictAdd, hk, ih]
        tauto

theorem nodup_keys_dictAdd {K : Type} [DecidableEq K] (m : List (K × ℚ)) (k : K) (d : ℚ)
    (h : (m.map Prod.fst).Nodup) : ((dictAdd m k d).map Prod.fst).Nodup := by
  induction m with
  | nil => simp [dictAdd]
  | cons kv t ih =>
      obtain ⟨k', v⟩ := kv
      simp only [List.map_cons, List.nodup_cons] at h
      by_cases hk : k' = k
      · subst hk
        simpa [dictAdd] using h
      · simp only [dictAdd, if_neg hk, List.map_cons, List.nodup_cons]
        refine ⟨?_, ih h.2⟩
        rw [mem_keys_dictAdd]
        rintro (hmem | rfl)
        · exact h.1 hmem
        · exact hk rfl

theorem dictGet_dictRemove_self {K V : Type} [DecidableEq K] (m : List (K × V)) (k : K) :
    dictGet (dictRemove m k) k = none := by
  induction m with
  | nil => simp [dictRemove, dictGet]
  | cons kv t ih =>
      obtain ⟨k', v⟩ := kv
      by_cases hk : k' = k
      · subst hk
        simpa [dictRemove, dictGet] using ih
      · simpa [dictRemove, dictGet, hk] using ih

theorem dictGet_dictRemove_ne {K V : Type} [DecidableEq K] (m : List (K × V)) (k k' : K)
    (h : k' ≠ k) : dictGet (dictRemove m k) k' = dictGet m k' := by
  have h' : ¬ k = k' := fun hh => h hh.symm
  induction m with
  | nil => simp [dictRemove, dictGet]
  | cons kv t ih =>
      obtain ⟨k'', v⟩ := kv
      by_cases hk : k'' = k
      · subst hk
        simpa [dictRemove, dictGet, h'] using ih
      · simp [dictRemove, dictGet, hk, ih]

theorem dictGet_dictRemoveAll {K V : Type} [DecidableEq K] (m : List (K × V)) (ks : List K)
    (k : K) : dictGet (dictRemoveAll m ks) k = if k ∈ ks then none else dictGet m k := by
  induction ks generalizing m with
  | nil => simp [dictRemoveAll]
  | cons a t ih =>
      by_cases hk : k = a
      · subst hk
        simp only [dictRemoveAll, List.foldl_cons]
        rw [show List.foldl dictRemove (dictRemove m k) t = dictRemoveAll (dictRemove m k) t from rfl]
        rw [ih]
        by_cases hmem : k ∈ t
        · simp [hmem]
        · simp [hmem, dictGet_dictRemove_self]
      · simp only [dictRemoveAll, List.foldl_cons]
        rw [show List.foldl dictRemove (dictRemove m a) t = dictRemoveAll (dictRemove m a) t from rfl]
        rw [ih]
        by_cases hmem : k ∈ t
        · simp [hmem, hk]
        · simp [hmem, hk, dictGet_dictRemove_ne m a k hk]

theorem mem_of_dictGet {K V : Type} [DecidableEq K] (m : List (K × V)) (k : K) (v : V)
    (h : dictGet m k = some v) : (k, v) ∈ m := by
  induction m with
  | nil => simp [dictGet] at h
  | cons kv t ih =>
      obtain ⟨k', v'⟩ := kv
      by_cases hk : k' = k
      · subst hk
        simp [dictGet] at h
        simp [h]
      · simp only [dictGet, if_neg hk] at h
        exact List.mem_cons_of_mem _ (ih h)

theorem dictGet_isSome_iff_mem_keys {K V : Type} [DecidableEq K] (m : List (K × V)) (k : K) :
    (dictGet m k).isSome ↔ k ∈ m.map Prod.fst := by
  induction m with
  | nil => simp [dictGet]
  | cons kv t ih =>
      obtain ⟨k', v'⟩ := kv
      by_cases hk : k' = k
      · subst hk
        simp [dictGet]
      · simp only [dictGet, if_neg hk, List.map_cons, List.mem_cons]
        rw [ih]
        constructor
        · exact Or.inr
        · rintro (rfl | hmem)
          · exact absurd rfl hk
          · exact hmem

theorem dictGet_of_mem_nodup {K V : Type} [DecidableEq K] (m : List (K × V)) (k : K) (v : V)
    (hnd : (m.map Prod.fst).Nodup) (h : (k, v) ∈ m) : dictGet m k = some v := by
  induction m with
  | nil => simp at h
  | cons kv t ih =>
      obtain ⟨k', v'⟩ := kv
      simp only [List.map_cons, List.nodup_cons] at hnd
      rcases List.mem_cons.mp h with heq | hmem
      · obtain ⟨rfl, rfl⟩ := Prod.mk.injEq .. ▸ heq
        simp [dictGet]
      · have hk : k' ≠ k := by
          rintro rfl
          exact hnd.1 (List.mem_map.mpr ⟨(k', v), hmem, rfl⟩)
        simp only [dictGet, if_neg hk]
        exact ih hnd.2 hmem

/-- Well-formedness of a policy estimator's pair of dictionaries: equal key
sets and no duplicate keys (as real Python dicts have). -/
def PolicyInv (m : NaivePolicy) : Prop :=
  (∀ k, (dictGet m.state_action_mass k).isSome ↔ (dictGet m.state_action_weight k).isSome) ∧
  (m.state_action_mass.map Prod.fst).Nodup ∧
  (m.state_action_weight.map Prod.fst).Nodup

theorem policyInv_innerStep (m : NaivePolicy) (k : List ℚ) (lab : ℚ) (h : PolicyInv m) :
    PolicyInv { state_action_mass := dictAdd m.state_action_mass k lab,
                state_action_weight := dictAdd m.state_action_weight k 1 } := by
  obtain ⟨hiff, hnd1, hnd2⟩ := h
  refine ⟨?_, nodup_keys_dictAdd _ _ _ hnd1, nodup_keys_dictAdd _ _ _ hnd2⟩
  intro k'
  by_cases hk : k' = k
  · subst hk
    simp [dictGet_dictAdd_self]
  · rw [dictGet_dictAdd_ne _ _ _ _ hk, dictGet_dictAdd_ne _ _ _ _ hk]
    exact hiff k'

theorem policyInv_foldl {α : Type} (step : NaivePolicy → α → NaivePolicy)
    (hstep : ∀ m a, PolicyInv m → PolicyInv (step m a)) :
    ∀ (l : List α) (m : NaivePolicy), PolicyInv m → PolicyInv (l.foldl step m) := by
  intro l
  induction l with
  | nil => intro m h; exact h
  | cons a t ih => intro m h; exact ih _ (hstep m a h)

theorem policyInv_accumSample (m : NaivePolicy) (s : PolicySample) (h : PolicyInv m) :
    PolicyInv (NaivePolicy.accumSample m s) := by
  unfold NaivePolicy.accumSample
  by_cases hv : s.1 = "value"
  · simpa [hv] using h
  · simp only [if_neg hv]
    exact policyInv_foldl _ (fun m' il hh => policyInv_innerStep m' (s.2.1 ++ [((il.1 : ℕ) : ℚ)]) il.2 hh) _ m h

theorem policyInv_accumulate (samples : List PolicySample) :
    PolicyInv (NaivePolicy.accumulate samples) := by
  unfold NaivePolicy.accumulate
  refine policyInv_foldl _ (fun m s hh => policyInv_accumSample m s hh) samples _ ?_
  exact ⟨fun k => by simp [dictGet], by simp, by simp⟩

theorem mem_prune_iff (m : NaivePolicy) (hnd : (m.state_action_weight.map Prod.fst).Nodup)
    (k : List ℚ) :
    k ∈ (m.state_action_weight.filter (fun kv => decide (kv.2 ≤ 5))).map Prod.fst ↔
      ∃ w, dictGet m.state_action_weight k = some w ∧ w ≤ 5 := by
  constructor
  · intro hmem
    rcases List.mem_map.mp hmem with ⟨⟨k1, w⟩, hmemf, hfst⟩
    obtain rfl : k1 = k := hfst
    obtain ⟨hmem', hcond⟩ := List.mem_filter.mp hmemf
    exact ⟨w, dictGet_of_mem_nodup _ _ _ hnd hmem', by simpa using hcond⟩
  · rintro ⟨w, hget, hle⟩
    exact List.mem_map.mpr ⟨(k, w),
      List.mem_filter.mpr ⟨mem_of_dictGet _ _ _ hget, by simpa using hle⟩, rfl⟩

theorem train_get_of_small (samples : List PolicySample) (k : List ℚ) (w : ℚ)
    (hget : dictGet (NaivePolicy.accumulate samples).state_action_weight k = some w)
    (hw : w ≤ 5) :
    dictGet (NaivePolicy.train samples).state_action_weight k = none ∧
    dictGet (NaivePolicy.train samples).state_action_mass k = none := by
  have hmem : k ∈ ((NaivePolicy.accumulate samples).state_action_weight.filter
      (fun kv => decide (kv.2 ≤ 5))).map Prod.fst :=
    (mem_prune_iff _ (policyInv_accumulate samples).2.2 k).mpr ⟨w, hget, hw⟩
  unfold NaivePolicy.train
  constructor <;> · rw [dictGet_dictRemoveAll]; simp [hmem]

theorem train_get_of_big (samples : List PolicySample) (k : List ℚ) (w : ℚ)
    (hget : dictGet (NaivePolicy.accumulate samples).state_action_weight k = some w)
    (hw : 5 < w) :
    dictGet (NaivePolicy.train samples).state_action_weight k = some w ∧
    dictGet (NaivePolicy.train samples).state_action_mass k =
      dictGet (NaivePolicy.accumulate samples).state_action_mass k := by
  have hnmem : k ∉ ((NaivePolicy.accumulate samples).state_action_weight.filter
      (fun kv => decide (kv.2 ≤ 5))).map Prod.fst := by
    rw [mem_prune_iff _ (policyInv_accumulate samples).2.2 k]
    rintro ⟨w', hget', hle⟩
    rw [hget] at hget'
    obtain rfl : w = w' := by simpa using hget'
    exact absurd hle (not_le.mpr hw)
  unfold NaivePolicy.train
  constructor
  · rw [dictGet_dictRemoveAll]
    simp [hnmem, hget]
  · rw [dictGet_dictRemoveAll]
    simp [hnmem]

theorem train_keys_iff (samples : List PolicySample) (k : List ℚ) :
    (dictGet (NaivePolicy.train samples).state_action_mass k).isSome ↔
    (dictGet (NaivePolicy.train samples).state_action_weight k).isSome := by
  unfold NaivePolicy.train
  rw [dictGet_dictRemoveAll, dictGet_dictRemoveAll]
  by_cases hmem : k ∈ ((NaivePolicy.accumulate samples).state_action_weight.filter
      (fun kv => decide (kv.2 ≤ 5))).map Prod.fst
  · simp [hmem]
  · simp only [if_neg hmem]
    exact (policyInv_accumulate samples).1 k

theorem train_weight_pos (samples : List PolicySample) (k : List ℚ) (w : ℚ)
    (hget : dictGet (NaivePolicy.train samples).state_action_weight k = some w) : 5 < w := by
  by_contra hle
  push_neg at hle
  have hacc : dictGet (NaivePolicy.accumulate samples).state_action_weight k = some w := by
    unfold NaivePolicy.train at hget
    rw [dictGet_dictRemoveAll] at hget
    by_cases hmem : k ∈ ((NaivePolicy.accumulate samples).state_action_weight.filter
        (fun kv => decide (kv.2 ≤ 5))).map Prod.fst
    · simp [hmem] at hget
    · simpa [hmem] using hget
  exact absurd ((train_get_of_small samples k w hacc hle).1.symm.trans hget) (by simp)

theorem tryMoves_ok_of_present (m : NaivePolicy) (ks : List (List ℚ))
    (hw : ∀ k w, dictGet m.state_action_weight k = some w → w ≠ 0)
    (hp : ∀ k ∈ ks, (dictGet m.state_action_mass k).isSome ∧
        (dictGet m.state_action_weight k).isSome) :
    m.tryMoves ks = Except.ok (ks.map (fun k =>
      (dictGet m.state_action_mass k).getD 0 / (dictGet m.state_action_weight k).getD 0)) := by
  induction ks with
  | nil => simp [NaivePolicy.tryMoves]
  | cons k t ih =>
      obtain ⟨hm, hwt⟩ := hp k (List.mem_cons_self k t)
      rcases Option.isSome_iff_exists.mp hm with ⟨mv, hmv⟩
      rcases Option.isSome_iff_exists.mp hwt with ⟨wv, hwv⟩
      have hwv0 : wv ≠ 0 := hw k wv hwv
      have hrest := ih (fun k' hk' => hp k' (List.mem_cons_of_mem _ hk'))
      simp [NaivePolicy.tryMoves, NaivePolicy.lookupRatio, hmv, hwv, hwv0, hrest,
        Bind.bind, Except.bind, Pure.pure, Except.pure]

theorem tryMoves_keyError_of_missing (m : NaivePolicy) (ks : List (List ℚ))
    (hw : ∀ k w, dictGet m.state_action_weight k = some w → w ≠ 0)
    (hmiss : ¬ ∀ k ∈ ks, (dictGet m.state_action_mass k).isSome ∧
        (dictGet m.state_action_weight k).isSome) :
    m.tryMoves ks = Except.error NaiveErr.keyError := by
  induction ks with
  | nil => exact absurd (by simp) hmiss
  | cons k t ih =>
      by_cases hk : (dictGet m.state_action_mass k).isSome ∧
          (dictGet m.state_action_weight k).isSome
      · obtain ⟨hm, hwt⟩ := hk
        rcases Option.isSome_iff_exists.mp hm with ⟨mv, hmv⟩
        rcases Option.isSome_iff_exists.mp hwt with ⟨wv, hwv⟩
        have hwv0 : wv ≠ 0 := hw k wv hwv
        have hmiss' : ¬ ∀ k' ∈ t, (dictGet m.state_action_mass k').isSome ∧
            (dictGet m.state_action_weight k').isSome := by
          intro hall
          exact hmiss (fun k' hk' => by
            rcases List.mem_cons.mp hk' with rfl | hmem
            · exact ⟨hm, hwt⟩
            · exact hall k' hmem)
        simp [NaivePolicy.tryMoves, NaivePolicy.lookupRatio, hmv, hwv, hwv0, ih hmiss',
          Bind.bind, Except.bind]
      · rw [Classical.not_and_iff_or_not_not] at hk
        rcases hk with hm | hwt
        · have hmv : dictGet m.state_action_mass k = none := Option.not_isSome_iff_eq_none.mp hm
          simp [NaivePolicy.tryMoves, NaivePolicy.lookupRatio, hmv, Bind.bind, Except.bind]
        · have hwv : dictGet m.state_action_weight k = none := Option.not_isSome_iff_eq_none.mp hwt
          cases hmv : dictGet m.state_action_mass k with
          | none => simp [NaivePolicy.tryMoves, NaivePolicy.lookupRatio, hmv, Bind.bind, Except.bind]
          | some mv => simp [NaivePolicy.tryMoves, NaivePolicy.lookupRatio, hmv, hwv,
              Bind.bind, Except.bind]

theorem allKeysPresent_iff (m : NaivePolicy) (f : List ℚ) (n : ℕ) :
    NaivePolicy.allKeysPresent m f n = true ↔
      ∀ k ∈ NaivePolicy.actionKeys f n, (dictGet m.state_action_mass k).isSome ∧
        (dictGet m.state_action_weight k).isSome := by
  simp [NaivePolicy.allKeysPresent, List.all_eq_true]

theorem train_no_zero_weight (samples : List PolicySample) :
    ∀ k w, dictGet (NaivePolicy.train samples).state_action_weight k = some w → w ≠ 0 := by
  intro k w hget
  have := train_weight_pos samples k w hget
  intro h0
  rw [h0] at this
  norm_num at this


/-- Claim C4: for every trained tabular policy estimator, features vector
and non-empty `allowable_actions` of length `A`: if any lookup key
`(features..., i)` is missing from either mapping, `predict` returns
exactly the uniform distribution `[1/A, ..., 1/A]`; if all `A` lookups
succeed, it returns `mass[key] / weight[key]` per action, without
renormalization. -/
theorem naivePolicy_predict_fallback_or_exact (samples : List PolicySample)
    (features : List ℚ) (allowable_actions : List ℚ) (_hne : allowable_actions ≠ []) :
    (NaivePolicy.allKeysPresent (NaivePolicy.train samples) features
        allowable_actions.length = false →
      NaivePolicy.predict (NaivePolicy.train samples) features allowable_actions =
        Except.ok (List.replicate allowable_actions.length
          (1 / (allowable_actions.length : ℚ)))) ∧
    (NaivePolicy.allKeysPresent (NaivePolicy.train samples) features
        allowable_actions.length = true →
      NaivePolicy.predict (NaivePolicy.train samples) features allowable_actions =
        Except.ok ((NaivePolicy.actionKeys features allowable_actions.length).map
          (fun k => (dictGet (NaivePolicy.train samples).state_action_mass k).getD 0 /
            (dictGet (NaivePolicy.train samples).state_action_weight k).getD 0))) := by
  constructor
  · intro hmiss
    have hmiss' : ¬ ∀ k ∈ NaivePolicy.actionKeys features allowable_actions.length,
        (dictGet (NaivePolicy.train samples).state_action_mass k).isSome ∧
        (dictGet (NaivePolicy.train samples).state_action_weight k).isSome := by
      rw [← allKeysPresent_iff]
      simp [hmiss]
    have h := tryMoves_keyError_of_missing (NaivePolicy.train samples)
      (NaivePolicy.actionKeys features allowable_actions.length)
      (train_no_zero_weight samples) hmiss'
    simp [NaivePolicy.predict, h]
  · intro hall
    have h := tryMoves_ok_of_present (NaivePolicy.train samples)
      (NaivePolicy.actionKeys features allowable_actions.length)
      (train_no_zero_weight samples)
      ((allKeysPresent_iff _ _ _).mp hall)
    simp [NaivePolicy.predict, h]

/-- Claim C8, amended: after any `NaivePolicy.train` run, the mass and
weight mappings have identical key sets; every key whose accumulated weight
is at most `min_support = 5` is deleted from both mappings, and every key
whose accumulated weight exceeds 5 survives in both with its weight intact.
`NaiveValue.train`, by contrast, raises `RuntimeError("Broken")` before
accumulating anything, so no value-estimator train run ever completes. -/
theorem tabular_train_pruning_amended (samples : List PolicySample) :
    (∀ k : List ℚ, (dictGet (NaivePolicy.train samples).state_action_mass k).isSome ↔
        (dictGet (NaivePolicy.train samples).state_action_weight k).isSome) ∧
    (∀ (k : List ℚ) (w : ℚ),
        dictGet (NaivePolicy.accumulate samples).state_action_weight k = some w → w ≤ 5 →
        dictGet (NaivePolicy.train samples).state_action_mass k = none ∧
        dictGet (NaivePolicy.train samples).state_action_weight k = none) ∧
    (∀ (k : List ℚ) (w : ℚ),
        dictGet (NaivePolicy.accumulate samples).state_action_weight k = some w → 5 < w →
        dictGet (NaivePolicy.train samples).state_action_weight k = some w ∧
        (dictGet (NaivePolicy.train samples).state_action_mass k).isSome) ∧
    (∀ (mv : NaiveValue) (sv : List (List ℚ × ℚ)) (tf : ℚ),
        NaiveValue.train mv sv tf = Except.error "Broken") := by
  refine ⟨train_keys_iff samples, ?_, ?_, fun mv sv tf => rfl⟩
  · intro k w hget hle
    obtain ⟨h1, h2⟩ := train_get_of_small samples k w hget hle
    exact ⟨h2, h1⟩
  · intro k w hget hlt
    obtain ⟨h1, _h2⟩ := train_get_of_big samples k w hget hlt
    refine ⟨h1, ?_⟩
    rw [train_keys_iff samples k, h1]
    rfl

theorem list_sum_map_div (l : List ℚ) (c : ℚ) :
    (l.map (fun x => x / c)).sum = l.sum / c := by
  induction l with
  | nil => simp
  | cons a t ih => simp [add_div, ih]

theorem replicate_uniform_sum (n : ℕ) (hn : n ≠ 0) :
    (List.replicate n (1 / (n : ℚ))).sum = 1 := by
  rw [List.sum_replicate, nsmul_eq_mul]
  field_simp

theorem tryMoves_ok_length (m : NaivePolicy) (ks : List (List ℚ)) (ps : List ℚ)
    (h : m.tryMoves ks = Except.ok ps) : ps.length = ks.length := by
  induction ks generalizing ps with
  | nil =>
      simp only [NaivePolicy.tryMoves, Except.ok.injEq] at h
      simp [← h]
  | cons k t ih =>
      cases hl : m.lookupRatio k with
      | error e =>
          rw [NaivePolicy.tryMoves, hl] at h
          simp [Bind.bind, Except.bind] at h
      | ok p =>
          cases ht : m.tryMoves t with
          | error e =>
              rw [NaivePolicy.tryMoves, hl, ht] at h
              simp [Bind.bind, Except.bind] at h
          | ok rest =>
              rw [NaivePolicy.tryMoves, hl, ht] at h
              simp only [Bind.bind, Except.bind, Pure.pure, Except.pure, Except.ok.injEq] at h
              rw [← h]
              simp [ih rest ht]

/-- Claim C1, amended: every policy estimator returns a sequence of length
exactly `A` on non-empty `allowable_actions` of length `A`, and the sum of
the returned distribution is exactly 1 for `UniformPolicy`, for
`GBDTPolicy` (whenever the backend returns one score per row and the score
sum is nonzero), and for trained `NaivePolicy` on its uniform-fallback
path — but NOT on `NaivePolicy`'s all-keys-present path, which returns
unrenormalized per-action averages (see the counterexample). -/
theorem policy_predict_length_and_sum_amended
    (agent_features allowable_actions : List ℚ) (hne : allowable_actions ≠ [])
    (pr : List (List ℚ) → List ℚ)
    (hb : ∀ rows, (pr rows).length = rows.length)
    (hsum : (pr (expand_inference agent_features allowable_actions)).sum ≠ 0)
    (samples : List PolicySample) (ps : List ℚ)
    (hps : NaivePolicy.predict (NaivePolicy.train samples) agent_features allowable_actions =
      Except.ok ps) :
    ((UniformPolicy.predict agent_features allowable_actions).length =
        allowable_actions.length ∧
      (UniformPolicy.predict agent_features allowable_actions).sum = 1) ∧
    (∃ qs : List ℚ, GBDTPolicy.predict pr agent_features allowable_actions =
        qs.map NpVal.num ∧ qs.length = allowable_actions.length ∧ qs.sum = 1) ∧
    (ps.length = allowable_actions.length ∧
      (NaivePolicy.allKeysPresent (NaivePolicy.train samples) agent_features
          allowable_actions.length = false →
        ps = List.replicate allowable_actions.length (1 / (allowable_actions.length : ℚ)) ∧
        ps.sum = 1)) := by
  have hn0 : allowable_actions.length ≠ 0 := fun h => hne (List.eq_nil_of_length_eq_zero h)
  have hlen : (NaivePolicy.actionKeys agent_features allowable_actions.length).length =
      allowable_actions.length := by
    simp [NaivePolicy.actionKeys]
  refine ⟨⟨?_, ?_⟩, ?_, ?_⟩
  · simp [UniformPolicy.predict, hne]
  · rw [UniformPolicy.predict, if_neg hne]
    exact replicate_uniform_sum _ hn0
  · by_cases h1 : allowable_actions.length = 1
    · exact ⟨[1], by simp [GBDTPolicy.predict, h1], by simp [h1], by simp⟩
    · set scores := pr (expand_inference agent_features allowable_actions) with hscores
      refine ⟨scores.map (fun s => s / scores.sum), ?_, ?_, ?_⟩
      · rw [GBDTPolicy.predict, if_neg h1, List.map_map]
        unfold gbdtNormalize
        refine congrArg (List.map · scores) ?_
        funext s
        simp [npDiv, Function.comp, hsum]
      · rw [List.length_map, hscores, hb, expand_inference, List.length_map]
      · rw [list_sum_map_div]
        exact div_self hsum
  · cases htry : (NaivePolicy.train samples).tryMoves
        (NaivePolicy.actionKeys agent_features allowable_actions.length) with
    | ok ratios =>
        have hps' : ratios = ps := by
          rw [NaivePolicy.predict, htry] at hps
          simpa using hps
        subst hps'
        refine ⟨(tryMoves_ok_length _ _ _ htry).trans hlen, ?_⟩
        intro hmiss
        have herr := tryMoves_keyError_of_missing (NaivePolicy.train samples)
          (NaivePolicy.actionKeys agent_features allowable_actions.length)
          (train_no_zero_weight samples)
          (by rw [← allKeysPresent_iff]; simp [hmiss])
        rw [htry] at herr
        exact absurd herr (by simp)
    | error e =>
        cases e with
        | keyError =>
            have hps' : ps = List.replicate allowable_actions.length
                (1 / (allowable_actions.length : ℚ)) := by
              rw [NaivePolicy.predict, htry] at hps
              simpa using hps.symm
            subst hps'
            exact ⟨by simp, fun _ => ⟨rfl, replicate_uniform_sum _ hn0⟩⟩
        | zeroDiv =>
            rw [NaivePolicy.predict, htry] at hps
            simp at hps

/-- Claim C1, counterexample: a tabular policy estimator trained on six
samples of the state `[7]` with single-action label `1/2` answers
`predict([7], [5])` with `[1/2]` — length 1 as claimed, but the elements
sum to `1/2`, not `1.0` (the tabular-hit path does not renormalize). -/
theorem naivePolicy_predict_sum_cex :
    NaivePolicy.predict
      (NaivePolicy.train (List.replicate 6 ("policy", ([7] : List ℚ), ([1/2] : List ℚ))))
      [7] [5] = Except.ok [1/2] ∧
    ([(1 : ℚ)/2] : List ℚ).sum ≠ 1 := by
  constructor
  · norm_num [NaivePolicy.predict, NaivePolicy.train, NaivePolicy.accumulate,
      NaivePolicy.accumSample, NaivePolicy.tryMoves, NaivePolicy.lookupRatio,
      NaivePolicy.actionKeys, dictAdd, dictGet, dictRemoveAll, dictRemove,
      List.replicate, List.enum, List.range, List.range.loop, List.enumFrom,
      Bind.bind, Except.bind, Pure.pure, Except.pure]
  · norm_num

/-- Witness for C1's amended claim at `agent_features = [1]`,
`allowable_actions = [2, 3]`, the constant-score backend, and the empty
training set (whose trained estimator takes the uniform-fallback path). -/
theorem policy_predict_length_and_sum_amended_witness :
    (([(2 : ℚ), 3] : List ℚ) ≠ []) ∧
    (∀ rows : List (List ℚ), (List.replicate rows.length (1 : ℚ)).length = rows.length) ∧
    ((List.replicate (expand_inference [1] [2, 3]).length (1 : ℚ)).sum ≠ 0) ∧
    (NaivePolicy.predict (NaivePolicy.train []) [1] [2, 3] = Except.ok [1/2, 1/2]) ∧
    (((UniformPolicy.predict [1] [2, 3]).length = ([(2 : ℚ), 3] : List ℚ).length ∧
        (UniformPolicy.predict [1] [2, 3]).sum = 1) ∧
      (∃ qs : List ℚ,
          GBDTPolicy.predict (fun rows => List.replicate rows.length (1 : ℚ)) [1] [2, 3] =
            qs.map NpVal.num ∧ qs.length = ([(2 : ℚ), 3] : List ℚ).length ∧ qs.sum = 1) ∧
      (([(1 : ℚ)/2, 1/2] : List ℚ).length = ([(2 : ℚ), 3] : List ℚ).length ∧
        (NaivePolicy.allKeysPresent (NaivePolicy.train []) [1]
            ([(2 : ℚ), 3] : List ℚ).length = false →
          ([(1 : ℚ)/2, 1/2] : List ℚ) =
            List.replicate ([(2 : ℚ), 3] : List ℚ).length
              (1 / ((([(2 : ℚ), 3] : List ℚ).length : ℕ) : ℚ)) ∧
          ([(1 : ℚ)/2, 1/2] : List ℚ).sum = 1))) := by
  refine ⟨by simp, fun rows => by simp, by norm_num [expand_inference], ?_, ?_⟩
  · norm_num [NaivePolicy.predict, NaivePolicy.train, NaivePolicy.accumulate,
      NaivePolicy.tryMoves, NaivePolicy.lookupRatio, NaivePolicy.actionKeys,
      dictGet, dictRemoveAll, List.replicate, List.range, List.range.loop,
      Bind.bind, Except.bind, Pure.pure, Except.pure]
  · refine policy_predict_length_and_sum_amended [1] [2, 3] (by simp)
      (fun rows => List.replicate rows.length (1 : ℚ)) (fun rows => by simp)
      (by norm_num [expand_inference]) [] [1/2, 1/2] ?_
    norm_num [NaivePolicy.predict, NaivePolicy.train, NaivePolicy.accumulate,
      NaivePolicy.tryMoves, NaivePolicy.lookupRatio, NaivePolicy.actionKeys,
      dictGet, dictRemoveAll, List.replicate, List.range, List.range.loop,
      Bind.bind, Except.bind, Pure.pure, Except.pure]

/-- Witness for C4: the estimator trained on six samples of state `[7]`
answers a 1-action query from the table (all keys present) and a 2-action
query with the exact uniform distribution (key `[7, 1]` missing). -/
theorem naivePolicy_predict_fallback_or_exact_witness :
    (([(5 : ℚ)] : List ℚ) ≠ []) ∧
    NaivePolicy.allKeysPresent
      (NaivePolicy.train (List.replicate 6 ("policy", ([7] : List ℚ), ([1/2] : List ℚ))))
      [7] ([(5 : ℚ)] : List ℚ).length = true ∧
    NaivePolicy.predict
      (NaivePolicy.train (List.replicate 6 ("policy", ([7] : List ℚ), ([1/2] : List ℚ))))
      [7] [5] =
      Except.ok ((NaivePolicy.actionKeys [7] ([(5 : ℚ)] : List ℚ).length).map
        (fun k => (dictGet (NaivePolicy.train
            (List.replicate 6 ("policy", ([7] : List ℚ), ([1/2] : List ℚ)))).state_action_mass
            k).getD 0 /
          (dictGet (NaivePolicy.train
            (List.replicate 6 ("policy", ([7] : List ℚ), ([1/2] : List ℚ)))).state_action_weight
            k).getD 0)) ∧
    NaivePolicy.allKeysPresent
      (NaivePolicy.train (List.replicate 6 ("policy", ([7] : List ℚ), ([1/2] : List ℚ))))
      [7] ([(5 : ℚ), 6] : List ℚ).length = false ∧
    NaivePolicy.predict
      (NaivePolicy.train (List.replicate 6 ("policy", ([7] : List ℚ), ([1/2] : List ℚ))))
      [7] [5, 6] =
      Except.ok (List.replicate ([(5 : ℚ), 6] : List ℚ).length
        (1 / ((([(5 : ℚ), 6] : List ℚ).length : ℕ) : ℚ))) := by
  refine ⟨by simp, ?_, ?_, ?_, ?_⟩
  · norm_num [NaivePolicy.allKeysPresent, NaivePolicy.actionKeys, NaivePolicy.train,
      NaivePolicy.accumulate, NaivePolicy.accumSample, dictAdd, dictGet,
      dictRemoveAll, dictRemove, List.replicate, List.enum, List.enumFrom,
      List.range, List.range.loop]
  · exact (naivePolicy_predict_fallback_or_exact
      (List.replicate 6 ("policy", ([7] : List ℚ), ([1/2] : List ℚ))) [7] [5]
      (by simp)).2
      (by norm_num [NaivePolicy.allKeysPresent, NaivePolicy.actionKeys, NaivePolicy.train,
        NaivePolicy.accumulate, NaivePolicy.accumSample, dictAdd, dictGet,
        dictRemoveAll, dictRemove, List.replicate, List.enum, List.enumFrom,
        List.range, List.range.loop])
  · norm_num [NaivePolicy.allKeysPresent, NaivePolicy.actionKeys, NaivePolicy.train,
      NaivePolicy.accumulate, NaivePolicy.accumSample, dictAdd, dictGet,
      dictRemoveAll, dictRemove, List.replicate, List.enum, List.enumFrom,
      List.range, List.range.loop]
  · exact (naivePolicy_predict_fallback_or_exact
      (List.replicate 6 ("policy", ([7] : List ℚ), ([1/2] : List ℚ))) [7] [5, 6]
      (by simp)).1
      (by norm_num [NaivePolicy.allKeysPresent, NaivePolicy.actionKeys, NaivePolicy.train,
        NaivePolicy.accumulate, NaivePolicy.accumSample, dictAdd, dictGet,
        dictRemoveAll, dictRemove, List.replicate, List.enum, List.enumFrom,
        List.range, List.range.loop])

/-- Claim C8, counterexample (value half of the claim): training the value
estimator on samples whose key `(0, 1)` appears `min_support + 1 = 6` times
does not produce a state in which the key survives — the call raises
`RuntimeError("Broken")` and commits nothing. -/
theorem naiveValue_train_pruning_cex :
    NaiveValue.train { state_visits := [], state_wins := [] }
      (List.replicate 6 (([0, 1] : List ℚ), (1 : ℚ))) (1/5) = Except.error "Broken" ∧
    (NaiveValue.train { state_visits := [], state_wins := [] }
      (List.replicate 6 (([0, 1] : List ℚ), (1 : ℚ))) (1/5)).isOk = false :=
  ⟨rfl, rfl⟩

/-- Witness for C8's amended claim: after training on six samples of state
`[7]` and one of state `[9]`, the key `[9, 0]` (weight 1 <= 5) is deleted
from both mappings, the key `[7, 0]` (weight 6 > 5) survives with weight 6
and a mass entry, and the key sets agree; `NaiveValue.train` errors. -/
theorem tabular_train_pruning_amended_witness :
    (dictGet (NaivePolicy.accumulate
        (List.replicate 6 ("policy", ([7] : List ℚ), ([1/2] : List ℚ)) ++
          [("policy", ([9] : List ℚ), ([1] : List ℚ))])).state_action_weight [9, 0] =
      some 1 ∧ (1 : ℚ) ≤ 5) ∧
    (dictGet (NaivePolicy.train
        (List.replicate 6 ("policy", ([7] : List ℚ), ([1/2] : List ℚ)) ++
          [("policy", ([9] : List ℚ), ([1] : List ℚ))])).state_action_mass [9, 0] = none ∧
     dictGet (NaivePolicy.train
        (List.replicate 6 ("policy", ([7] : List ℚ), ([1/2] : List ℚ)) ++
          [("policy", ([9] : List ℚ), ([1] : List ℚ))])).state_action_weight [9, 0] = none) ∧
    (dictGet (NaivePolicy.train
        (List.replicate 6 ("policy", ([7] : List ℚ), ([1/2] : List ℚ)) ++
          [("policy", ([9] : List ℚ), ([1] : List ℚ))])).state_action_weight [7, 0] =
        some 6 ∧
      (dictGet (NaivePolicy.train
        (List.replicate 6 ("policy", ([7] : List ℚ), ([1/2] : List ℚ)) ++
          [("policy", ([9] : List ℚ), ([1] : List ℚ))])).state_action_mass [7, 0]).isSome) ∧
    ((dictGet (NaivePolicy.train
        (List.replicate 6 ("policy", ([7] : List ℚ), ([1/2] : List ℚ)) ++
          [("policy", ([9] : List ℚ), ([1] : List ℚ))])).state_action_mass [9, 0]).isSome ↔
     (dictGet (NaivePolicy.train
        (List.replicate 6 ("policy", ([7] : List ℚ), ([1/2] : List ℚ)) ++
          [("policy", ([9] : List ℚ), ([1] : List ℚ))])).state_action_weight [9, 0]).isSome) ∧
    NaiveValue.train { state_visits := [], state_wins := [] } [] 0 = Except.error "Broken" := by
  have h9 : dictGet (NaivePolicy.accumulate
      (List.replicate 6 ("policy", ([7] : List ℚ), ([1/2] : List ℚ)) ++
        [("policy", ([9] : List ℚ), ([1] : List ℚ))])).state_action_weight [9, 0] = some 1 := by
    norm_num [NaivePolicy.accumulate, NaivePolicy.accumSample, dictAdd, dictGet,
      List.replicate, List.enum, List.enumFrom]
  have h7 : dictGet (NaivePolicy.accumulate
      (List.replicate 6 ("policy", ([7] : List ℚ), ([1/2] : List ℚ)) ++
        [("policy", ([9] : List ℚ), ([1] : List ℚ))])).state_action_weight [7, 0] = some 6 := by
    norm_num [NaivePolicy.accumulate, NaivePolicy.accumSample, dictAdd, dictGet,
      List.replicate, List.enum, List.enumFrom]
  refine ⟨⟨h9, by norm_num⟩, ?_, ?_, ?_, ?_⟩
  · exact (tabular_train_pruning_amended _).2.1 [9, 0] 1 h9 (by norm_num)
  · exact (tabular_train_pruning_amended _).2.2.1 [7, 0] 6 h7 (by norm_num)
  · exact (tabular_train_pruning_amended _).1 [9, 0]
  · exact (tabular_train_pruning_amended
      (List.replicate 6 ("policy", ([7] : List ℚ), ([1/2] : List ℚ)) ++
        [("policy", ([9] : List ℚ), ([1] : List ℚ))])).2.2.2
      { state_visits := [], state_wins := [] } [] 0

theorem dictSet_not_mem {K V : Type} [DecidableEq K] (m : List (K × V)) (k : K) (v : V)
    (h : k ∉ m.map Prod.fst) : dictSet m k v = m ++ [(k, v)] := by
  induction m with
  | nil => simp [dictSet]
  | cons kv t ih =>
      obtain ⟨k', v'⟩ := kv
      simp only [List.map_cons, List.mem_cons, not_or] at h
      rw [dictSet, if_neg (fun hh => h.1 hh.symm)]
      simp [ih h.2]

theorem buildDict_aux_eq {K V : Type} [DecidableEq K] (l : List (K × V)) :
    ∀ acc : List (K × V), (l.map Prod.fst).Nodup →
    (∀ a ∈ l.map Prod.fst, a ∉ acc.map Prod.fst) →
    l.foldl (fun m kv => dictSet m kv.1 kv.2) acc = acc ++ l := by
  induction l with
  | nil => intro acc _ _; simp
  | cons kv t ih =>
      intro acc hnd hdisj
      obtain ⟨k, v⟩ := kv
      simp only [List.map_cons, List.nodup_cons] at hnd
      have hk : k ∉ acc.map Prod.fst := hdisj k (by simp)
      rw [List.foldl_cons, dictSet_not_mem acc k v hk]
      rw [ih (acc ++ [(k, v)]) hnd.2 ?_]
      · simp
      · intro a ha
        have hna : a ∉ acc.map Prod.fst :=
          hdisj a (by simpa using Or.inr ha)
        simp only [List.map_append, List.mem_append]
        rintro (hacc | hsing)
        · exact hna hacc
        · simp only [List.map_cons, List.map_nil, List.mem_singleton] at hsing
          subst hsing
          exact hnd.1 ha

theorem buildDict_eq_self {K V : Type} [DecidableEq K] (l : List (K × V))
    (hnd : (l.map Prod.fst).Nodup) : buildDict l = l := by
  have := buildDict_aux_eq l [] hnd (by simp)
  simpa [buildDict] using this

theorem numList_decode (es : List PyVal) :
    ∀ qs : List ℚ, numList es = some qs → qs.map PyVal.num = es := by
  induction es with
  | nil => intro qs h; simp [numList] at h; simp [← h]
  | cons e t ih =>
      intro qs h
      cases e with
      | tup _ => simp [numList] at h
      | num q =>
          cases hrest : numList t with
          | none => simp [numList, hrest] at h
          | some rest =>
              simp only [numList, hrest, Option.map_some] at h
              obtain rfl : q :: rest = qs := by simpa using h
              simp [ih rest hrest]

theorem flatKey_decode (k : PyVal) (ks : List ℚ) (h : flatKey k = some ks) :
    PyVal.tup (ks.map PyVal.num) = k := by
  cases k with
  | num q => simp [flatKey] at h
  | tup es => exact congrArg PyVal.tup (numList_decode es ks h)

theorem pyInt_intCast (z : ℤ) : pyInt ((z : ℤ) : ℚ) = z := by
  unfold pyInt
  split_ifs <;> simp

theorem encodeItemsInt_decode (l : List (PyVal × ℤ)) :
    ∀ f : List (List ℚ × ℚ), encodeItemsInt l = some f →
    f.map (fun kv => (PyVal.tup (kv.1.map PyVal.num), pyInt kv.2)) = l := by
  induction l with
  | nil => intro f h; simp [encodeItemsInt] at h; simp [← h]
  | cons kv t ih =>
      intro f h
      obtain ⟨k, v⟩ := kv
      simp only [encodeItemsInt, Option.pure_def, Option.bind_eq_bind,
        Option.bind_eq_some] at h
      rcases h with ⟨ks, hks, rest, hrest, hf⟩
      obtain rfl : f = (ks, (v : ℚ)) :: rest := by simpa using hf.symm
      simp only [List.map_cons]
      rw [ih rest hrest, flatKey_decode k ks hks]
      norm_num [pyInt_intCast]

/-- Claim C9: saving a tabular estimator (value or policy) and loading
the result reproduces exactly the same key-value pairs: tuple element order
is preserved (each key decodes to the same tuple) and numeric types are
preserved (`int(value)` is the identity on the integer counts, `float` on
the rational mass/weight values).  The hypotheses state that the keys are
flat numeric tuples (`save` succeeds) and that each mapping has no
duplicate keys, both guaranteed for states produced by real dicts. -/
theorem tabular_save_load_roundtrip (mv : NaiveValue) (f : ValueFile) (mp : NaivePolicy)
    (hsave : NaiveValue.save mv = some f)
    (h1 : (mv.state_visits.map Prod.fst).Nodup)
    (h2 : (mv.state_wins.map Prod.fst).Nodup)
    (h3 : (mp.state_action_mass.map Prod.fst).Nodup)
    (h4 : (mp.state_action_weight.map Prod.fst).Nodup) :
    NaiveValue.load f = mv ∧ NaivePolicy.load (NaivePolicy.save mp) = mp := by
  constructor
  · simp only [NaiveValue.save, Option.pure_def, Option.bind_eq_bind,
      Option.bind_eq_some] at hsave
    rcases hsave with ⟨vis, hvis, wins, hwins, hf⟩
    obtain rfl : f = (vis, wins) := by simpa using hf.symm
    have hv := encodeItemsInt_decode _ _ hvis
    have hw := encodeItemsInt_decode _ _ hwins
    cases mv with
    | mk sv sw =>
        simp only at hv hw h1 h2
        unfold NaiveValue.load
        simp only
        rw [hv, hw, buildDict_eq_self _ h1, buildDict_eq_self _ h2]
  · cases mp with
    | mk ma wa =>
        simp only at h3 h4
        unfold NaivePolicy.load NaivePolicy.save
        simp only
        rw [buildDict_eq_self _ h3, buildDict_eq_self _ h4]

/-- Witness for C9 on a one-entry value estimator (key `(0, 1)`, integer
counts 6 and 3) and a one-entry policy estimator (key `(7, 0)`). -/
theorem tabular_save_load_roundtrip_witness :
    NaiveValue.save
      { state_visits := [(PyVal.tup [PyVal.num 0, PyVal.num 1], 6)],
        state_wins := [(PyVal.tup [PyVal.num 0, PyVal.num 1], 3)] } =
      some ([([0, 1], 6)], [([0, 1], 3)]) ∧
    (NaiveValue.load ([([0, 1], 6)], [([0, 1], 3)]) =
      { state_visits := [(PyVal.tup [PyVal.num 0, PyVal.num 1], 6)],
        state_wins := [(PyVal.tup [PyVal.num 0, PyVal.num 1], 3)] } ∧
     NaivePolicy.load (NaivePolicy.save
        { state_action_mass := [([7, 0], 3)], state_action_weight := [([7, 0], 6)] }) =
      { state_action_mass := [([7, 0], 3)], state_action_weight := [([7, 0], 6)] }) := by
  have hsave : NaiveValue.save
      { state_visits := [(PyVal.tup [PyVal.num 0, PyVal.num 1], 6)],
        state_wins := [(PyVal.tup [PyVal.num 0, PyVal.num 1], 3)] } =
      some ([([0, 1], 6)], [([0, 1], 3)]) := by
    simp [NaiveValue.save, encodeItemsInt, flatKey, numList]
  refine ⟨hsave, tabular_save_load_roundtrip _ _ _ hsave (by simp) (by simp)
    (by simp) (by simp)⟩
